import Mathlib

/-!
Verification development for the BetterSpace live DOM synchronization engine.

The definitions below are a shallow embedding of the JavaScript sources
(`src/content.js`, `src/popup.js`, `src/unnamed/part_000`, `src/unnamed/part_001`).
Each definition's doc comment names the source function it embeds.  DOM
elements are modelled by explicit records holding exactly the fields the
engine reads and writes; `chrome.storage.local` is modelled as an association
list; timers are modelled by explicit timestamps.
-/

namespace BetterSpace

/-- Model of JavaScript `String.prototype.trim` on the underlying character
list: whitespace is stripped from both ends.  (Lean's built-in `String.trim`
is defined through `Substring` primitives that do not reduce in the kernel,
so the same function is re-implemented here over `List Char`.) -/
def trimChars (l : List Char) : List Char :=
  ((l.dropWhile Char.isWhitespace).reverse.dropWhile Char.isWhitespace).reverse

/-- JavaScript `raw.trim()` lifted to `String`. -/
def jsTrim (s : String) : String := String.mk (trimChars s.data)

/-- JavaScript object lookup `m[k]` over an association-list model of a plain
object with string values: `none` models `undefined`. -/
def lookupStr (m : List (String × String)) (k : String) : Option String :=
  (m.find? (fun p => p.1 = k)).map (fun p => p.2)

/-- One resolved course element as produced by `findCourseElements`
(`src/content.js` lines 42-62, `src/popup.js` lines 194-214): the course id
extracted from the `d2l-card` href, the visible text inside the
`d2l-organization-name` shadow root, the `text` attribute of the `d2l-card`
host (`none` models an absent attribute), and the out-of-band original-label
marker `enrollCard.dataset.bsOriginal` (`none` models an unset dataset key). -/
structure CourseElem where
  id : String
  visibleText : String
  textAttr : Option String
  bsOriginal : Option String
deriving Repr, DecidableEq

/-- JavaScript falsiness test `!enrollCard.dataset.bsOriginal` for the marker:
an unset dataset key (`none`) and an empty string are both falsy. -/
def isUnsetMarker : Option String → Bool
  | none => true
  | some s => s = ""

/-- The original-label capture step of `findCourseElements`
(`src/content.js` lines 53-57):
`if (!enrollCard.dataset.bsOriginal) { const text = orgName.shadowRoot.textContent.trim(); if (text) enrollCard.dataset.bsOriginal = text; }`. -/
def captureOriginal (e : CourseElem) : CourseElem :=
  if isUnsetMarker e.bsOriginal then
    if jsTrim e.visibleText = "" then e
    else { e with bsOriginal := some (jsTrim e.visibleText) }
  else e

/-- JavaScript truthiness filter on an optional string operand: `undefined`
and the empty string are falsy, every other string is kept. -/
def truthyOpt : Option String → Option String
  | none => none
  | some s => if s = "" then none else some s

/-- `const displayName = customName || original; if (!displayName) return;`
(`src/content.js` lines 68-71): the first truthy operand wins; `none` means
the item is skipped. -/
def displayNameOf (custom orig : Option String) : Option String :=
  match truthyOpt custom with
  | some c => some c
  | none => truthyOpt orig

/-- The two guarded DOM writes of `applyAllNames` for one element with a
resolved display name `d` (`src/content.js` lines 73-81): the visible text is
rewritten only when its trimmed value differs from `d`, and the host `text`
attribute only when it differs from `d`.  The second component counts the
writes actually performed. -/
def syncWrites (e : CourseElem) (d : String) : CourseElem × Nat :=
  ({ e with
      visibleText := if jsTrim e.visibleText = d then e.visibleText else d,
      textAttr := some d },
    (if jsTrim e.visibleText = d then 0 else 1) + (if e.textAttr = some d then 0 else 1))

/-- One element's pass through `applyAllNames` (`src/content.js` lines 66-83),
including the capture step that `findCourseElements` performs when it
resolves the element: compute `displayName = savedNames[id] || bsOriginal`,
skip when falsy, otherwise perform the guarded writes. -/
def syncElem (names : List (String × String)) (e0 : CourseElem) : CourseElem × Nat :=
  match displayNameOf (lookupStr names (captureOriginal e0).id) (captureOriginal e0).bsOriginal with
  | none => (captureOriginal e0, 0)
  | some d => syncWrites (captureOriginal e0) d

/-- A full synchronization pass of `applyAllNames` over the currently
resolved elements: the resulting element states and the total number of DOM
writes performed. -/
def applyAllNames (names : List (String × String)) (es : List CourseElem) :
    List CourseElem × Nat :=
  (es.map (fun e => (syncElem names e).1), (es.map (fun e => (syncElem names e).2)).sum)

example :
    applyAllNames [("1", "CS 101")] [⟨"1", "Old Name", none, none⟩] =
      ([⟨"1", "CS 101", some "CS 101", some "Old Name"⟩], 2) := by decide

example :
    applyAllNames [("1", "CS 101")] [⟨"1", "CS 101", some "CS 101", some "Old Name"⟩] =
      ([⟨"1", "CS 101", some "CS 101", some "Old Name"⟩], 0) := by decide

/-- A sequence of synchronization passes between which the host page may
externally reset each element's visible text: before each pass the visible
text is replaced by the next string in `texts`, then `syncElem` runs. -/
def runPasses (names : List (String × String)) (texts : List String) (e : CourseElem) :
    CourseElem :=
  texts.foldl (fun acc t => (syncElem names { acc with visibleText := t }).1) e

@[simp] lemma captureOriginal_id (e : CourseElem) : (captureOriginal e).id = e.id := by
  unfold captureOriginal
  split <;> (try split) <;> rfl

@[simp] lemma captureOriginal_visibleText (e : CourseElem) :
    (captureOriginal e).visibleText = e.visibleText := by
  unfold captureOriginal
  split <;> (try split) <;> rfl

@[simp] lemma captureOriginal_textAttr (e : CourseElem) :
    (captureOriginal e).textAttr = e.textAttr := by
  unfold captureOriginal
  split <;> (try split) <;> rfl

lemma captureOriginal_of_set (e : CourseElem) (o : String) (h : e.bsOriginal = some o)
    (ho : o ≠ "") : captureOriginal e = e := by
  unfold captureOriginal
  have : isUnsetMarker e.bsOriginal = false := by
    rw [h]; simpa [isUnsetMarker] using ho
  simp [this]

lemma captureOriginal_of_empty (e : CourseElem) (h : isUnsetMarker e.bsOriginal = true)
    (ht : jsTrim e.visibleText = "") : captureOriginal e = e := by
  unfold captureOriginal
  simp [h, ht]

lemma captureOriginal_of_fresh (e : CourseElem) (h : isUnsetMarker e.bsOriginal = true)
    (ht : jsTrim e.visibleText ≠ "") :
    captureOriginal e = { e with bsOriginal := some (jsTrim e.visibleText) } := by
  unfold captureOriginal
  simp [h, ht]

lemma syncElem_bsOriginal (names : List (String × String)) (e : CourseElem) :
    (syncElem names e).1.bsOriginal = (captureOriginal e).bsOriginal := by
  unfold syncElem syncWrites
  split <;> rfl

lemma syncElem_bsOriginal_of_set (names : List (String × String)) (e : CourseElem)
    (o : String) (h : e.bsOriginal = some o) (ho : o ≠ "") :
    (syncElem names e).1.bsOriginal = some o := by
  rw [syncElem_bsOriginal, captureOriginal_of_set e o h ho, h]

lemma runPasses_preserves (names : List (String × String)) (texts : List String)
    (e : CourseElem) (o : String) (h : e.bsOriginal = some o) (ho : o ≠ "") :
    (runPasses names texts e).bsOriginal = some o := by
  induction texts generalizing e with
  | nil => exact h
  | cons t ts ih =>
      have hstep : ((syncElem names { e with visibleText := t }).1).bsOriginal = some o :=
        syncElem_bsOriginal_of_set names { e with visibleText := t } o h ho
      simpa [runPasses, List.foldl_cons] using ih _ hstep

lemma runPasses_unset (names : List (String × String)) (texts : List String)
    (e : CourseElem) (h : isUnsetMarker e.bsOriginal = true)
    (hall : ∀ t ∈ texts, jsTrim t = "") :
    (runPasses names texts e).bsOriginal = e.bsOriginal := by
  induction texts generalizing e with
  | nil => rfl
  | cons t ts ih =>
      have ht : jsTrim t = "" := hall t (by simp)
      have hcap : captureOriginal { e with visibleText := t } = { e with visibleText := t } :=
        captureOriginal_of_empty _ h (by simpa using ht)
      have hstep : ((syncElem names { e with visibleText := t }).1).bsOriginal =
          e.bsOriginal := by
        rw [syncElem_bsOriginal, hcap]
      have hstep' : isUnsetMarker ((syncElem names { e with visibleText := t }).1).bsOriginal =
          true := by rw [hstep]; exact h
      have := ih ((syncElem names { e with visibleText := t }).1) hstep'
        (fun v hv => hall v (by simp [hv]))
      simpa [runPasses, List.foldl_cons, hstep] using this

/-- C2.  Original-capture invariant: (a) once the out-of-band marker holds a
non-empty original it survives any number of further passes, whatever the
host externally does to the visible text in between; (b) passes that only
ever see whitespace-empty visible text before capture leave the marker
unset; (c) in a run whose visible texts are empty up to the first non-empty
one, the marker ends up holding exactly that first non-empty trimmed text. -/
theorem original_capture_invariant (names : List (String × String)) (texts : List String)
    (e : CourseElem) :
    ((∀ o, e.bsOriginal = some o → o ≠ "" → (runPasses names texts e).bsOriginal = some o) ∧
      (isUnsetMarker e.bsOriginal = true → (∀ t ∈ texts, jsTrim t = "") →
        isUnsetMarker (runPasses names texts e).bsOriginal = true) ∧
      (isUnsetMarker e.bsOriginal = true → ∀ pre t post, texts = pre ++ t :: post →
        (∀ u ∈ pre, jsTrim u = "") → jsTrim t ≠ "" →
        (runPasses names texts e).bsOriginal = some (jsTrim t))) := by
  refine ⟨fun o h ho => runPasses_preserves names texts e o h ho, ?_, ?_⟩
  · intro h hall
    rw [runPasses_unset names texts e h hall]
    exact h
  · intro h pre t post htexts hpre ht
    subst htexts
    induction pre generalizing e with
    | nil =>
        have hcap : captureOriginal { e with visibleText := t } =
            { e with visibleText := t, bsOriginal := some (jsTrim t) } :=
          captureOriginal_of_fresh _ h (by simpa using ht)
        have hstep : ((syncElem names { e with visibleText := t }).1).bsOriginal =
            some (jsTrim t) := by
          rw [syncElem_bsOriginal, hcap]
        have := runPasses_preserves names post
          ((syncElem names { e with visibleText := t }).1) (jsTrim t) hstep ht
        simpa [runPasses, List.foldl_cons] using this
    | cons u us ih =>
        have hu : jsTrim u = "" := hpre u (by simp)
        have hcap : captureOriginal { e with visibleText := u } = { e with visibleText := u } :=
          captureOriginal_of_empty _ h (by simpa using hu)
        have hstep : ((syncElem names { e with visibleText := u }).1).bsOriginal =
            e.bsOriginal := by rw [syncElem_bsOriginal, hcap]
        have hstep' : isUnsetMarker ((syncElem names { e with visibleText := u }).1).bsOriginal =
            true := by rw [hstep]; exact h
        have := ih ((syncElem names { e with visibleText := u }).1) hstep'
          (fun v hv => hpre v (by simp [hv]))
        simpa [runPasses, List.foldl_cons] using this

/-- Closed instance of C2: starting from an uncaptured element, a pass that
sees empty text leaves the marker unset, the first non-empty text
("Algebra I") is captured, and a later external change of the visible text
does not overwrite it. -/
theorem original_capture_invariant_witness :
    (runPasses [] ["", "Algebra I", "CHANGED"] ⟨"7", "x", none, none⟩).bsOriginal =
      some "Algebra I" :=
  (original_capture_invariant [] ["", "Algebra I", "CHANGED"] ⟨"7", "x", none, none⟩).2.2
    (by decide) [""] "Algebra I" ["CHANGED"] rfl (by decide) (by decide)

@[simp] lemma syncWrites_fst_id (e : CourseElem) (d : String) :
    (syncWrites e d).1.id = e.id := rfl

@[simp] lemma syncWrites_fst_textAttr (e : CourseElem) (d : String) :
    (syncWrites e d).1.textAttr = some d := rfl

@[simp] lemma syncWrites_fst_bsOriginal (e : CourseElem) (d : String) :
    (syncWrites e d).1.bsOriginal = e.bsOriginal := rfl

lemma syncWrites_fst_visibleText (e : CourseElem) (d : String) :
    (syncWrites e d).1.visibleText =
      if jsTrim e.visibleText = d then e.visibleText else d := rfl

lemma syncWrites_snd (e : CourseElem) (d : String) :
    (syncWrites e d).2 =
      (if jsTrim e.visibleText = d then 0 else 1) +
        (if e.textAttr = some d then 0 else 1) := rfl

lemma syncElem_eq_none (names : List (String × String)) (e : CourseElem)
    (h : displayNameOf (lookupStr names (captureOriginal e).id)
        (captureOriginal e).bsOriginal = none) :
    syncElem names e = (captureOriginal e, 0) := by
  unfold syncElem
  rw [h]

lemma syncElem_eq_some (names : List (String × String)) (e : CourseElem) (d : String)
    (h : displayNameOf (lookupStr names (captureOriginal e).id)
        (captureOriginal e).bsOriginal = some d) :
    syncElem names e = syncWrites (captureOriginal e) d := by
  unfold syncElem
  rw [h]

lemma truthyOpt_eq_some (x : Option String) (c : String) (h : truthyOpt x = some c) :
    x = some c := by
  cases x with
  | none => simp [truthyOpt] at h
  | some s =>
      by_cases hs : s = "" <;> simp [truthyOpt, hs] at h
      simp [h]

lemma truthyOpt_ne_empty (x : Option String) (c : String) (h : truthyOpt x = some c) :
    c ≠ "" := by
  cases x with
  | none => simp [truthyOpt] at h
  | some s =>
      by_cases hs : s = "" <;> simp [truthyOpt, hs] at h
      exact h ▸ hs

lemma truthyOpt_of_unset (x : Option String) (h : isUnsetMarker x = true) :
    truthyOpt x = none := by
  cases x with
  | none => rfl
  | some s => simp [isUnsetMarker] at h; simp [truthyOpt, h]

lemma displayNameOf_ne_empty (a b : Option String) (d : String)
    (h : displayNameOf a b = some d) : d ≠ "" := by
  unfold displayNameOf at h
  cases ha : truthyOpt a with
  | some c => rw [ha] at h; exact (Option.some.injEq _ _ ▸ h) ▸ truthyOpt_ne_empty a c ha
  | none => rw [ha] at h; exact truthyOpt_ne_empty b d h

lemma displayNameOf_custom (a b : Option String) (c : String) (ha : a = some c)
    (hc : c ≠ "") : displayNameOf a b = some c := by
  subst ha
  simp [displayNameOf, truthyOpt, hc]

lemma displayNameOf_orig (a b : Option String) (o : String) (ha : truthyOpt a = none)
    (hb : b = some o) (ho : o ≠ "") : displayNameOf a b = some o := by
  subst hb
  unfold displayNameOf
  rw [ha]
  simp [truthyOpt, ho]

lemma displayNameOf_none (a b : Option String) (ha : truthyOpt a = none)
    (hb : truthyOpt b = none) : displayNameOf a b = none := by
  simp [displayNameOf, ha, hb]

lemma lookupStr_mem (m : List (String × String)) (k v : String)
    (h : lookupStr m k = some v) : ∃ p ∈ m, p.2 = v := by
  unfold lookupStr at h
  cases hf : m.find? (fun p => p.1 = k) with
  | none => rw [hf] at h; simp at h
  | some p =>
      rw [hf] at h
      exact ⟨p, List.mem_of_find?_eq_some hf, by simpa using h⟩

lemma captureOriginal_eq_self_of_unset (e : CourseElem)
    (h : isUnsetMarker (captureOriginal e).bsOriginal = true) : captureOriginal e = e := by
  by_cases h1 : isUnsetMarker e.bsOriginal
  · by_cases h2 : jsTrim e.visibleText = ""
    · exact captureOriginal_of_empty e h1 h2
    · rw [captureOriginal_of_fresh e h1 h2] at h
      simp [isUnsetMarker] at h
      exact absurd h h2
  · unfold captureOriginal
    simp [h1]

/-- C5.  Display-name resolution: with a present (necessarily non-empty)
override, the synchronized value is the override; with no truthy override
entry but a captured non-empty original, it is the original; with neither,
the element is skipped untouched and zero writes are performed.  The
resolved value is read off the host `text` attribute the pass maintains. -/
theorem display_name_resolution (names : List (String × String)) (e : CourseElem) :
    ((∀ c, lookupStr names e.id = some c → c ≠ "" →
        (syncElem names e).1.textAttr = some c) ∧
      (truthyOpt (lookupStr names e.id) = none →
        ∀ o, (captureOriginal e).bsOriginal = some o → o ≠ "" →
          (syncElem names e).1.textAttr = some o) ∧
      (truthyOpt (lookupStr names e.id) = none →
        isUnsetMarker (captureOriginal e).bsOriginal = true →
        syncElem names e = (e, 0))) := by
  refine ⟨?_, ?_, ?_⟩
  · intro c hc hne
    have hd : displayNameOf (lookupStr names (captureOriginal e).id)
        (captureOriginal e).bsOriginal = some c := by
      rw [captureOriginal_id]
      exact displayNameOf_custom _ _ c hc hne
    rw [syncElem_eq_some names e c hd]
    simp
  · intro hnone o hor hne
    have hd : displayNameOf (lookupStr names (captureOriginal e).id)
        (captureOriginal e).bsOriginal = some o := by
      rw [captureOriginal_id]
      exact displayNameOf_orig _ _ o hnone hor hne
    rw [syncElem_eq_some names e o hd]
    simp
  · intro hnone hunset
    have hd : displayNameOf (lookupStr names (captureOriginal e).id)
        (captureOriginal e).bsOriginal = none := by
      rw [captureOriginal_id]
      exact displayNameOf_none _ _ hnone (truthyOpt_of_unset _ hunset)
    rw [syncElem_eq_none names e hd, captureOriginal_eq_self_of_unset e hunset]

/-- Closed instance of C5: an override wins, the captured original is used
when no override entry exists, and an element with neither is untouched. -/
theorem display_name_resolution_witness :
    ((syncElem [("12345", "CS 101")] ⟨"12345", "Intro to CS", none, none⟩).1.textAttr =
        some "CS 101" ∧
      (syncElem [] ⟨"12345", "Intro to CS", none, none⟩).1.textAttr = some "Intro to CS" ∧
      syncElem [] ⟨"12345", "   ", none, none⟩ = (⟨"12345", "   ", none, none⟩, 0)) :=
  ⟨(display_name_resolution [("12345", "CS 101")] ⟨"12345", "Intro to CS", none, none⟩).1
      "CS 101" (by decide) (by decide),
    (display_name_resolution [] ⟨"12345", "Intro to CS", none, none⟩).2.1 (by decide)
      "Intro to CS" (by decide) (by decide),
    (display_name_resolution [] ⟨"12345", "   ", none, none⟩).2.2 (by decide) (by decide)⟩

lemma captureOriginal_bsOriginal_cases (e : CourseElem) :
    (captureOriginal e).bsOriginal = e.bsOriginal ∨
      (captureOriginal e).bsOriginal = some (jsTrim e.visibleText) := by
  by_cases h1 : isUnsetMarker e.bsOriginal
  · by_cases h2 : jsTrim e.visibleText = ""
    · rw [captureOriginal_of_empty e h1 h2]; exact Or.inl rfl
    · rw [captureOriginal_of_fresh e h1 h2]; exact Or.inr rfl
  · have he : captureOriginal e = e := by unfold captureOriginal; simp [h1]
    rw [he]; exact Or.inl rfl

lemma captureOriginal_idem (e : CourseElem) :
    captureOriginal (captureOriginal e) = captureOriginal e := by
  by_cases h1 : isUnsetMarker e.bsOriginal
  · by_cases h2 : jsTrim e.visibleText = ""
    · rw [captureOriginal_of_empty e h1 h2, captureOriginal_of_empty e h1 h2]
    · rw [captureOriginal_of_fresh e h1 h2]
      exact captureOriginal_of_set _ (jsTrim e.visibleText) rfl h2
  · have he : captureOriginal e = e := by unfold captureOriginal; simp [h1]
    rw [he, he]

lemma captureOriginal_unset_trim (e : CourseElem) (h1 : isUnsetMarker e.bsOriginal = true)
    (h2 : captureOriginal e = e) : jsTrim e.visibleText = "" := by
  by_contra hne
  rw [captureOriginal_of_fresh e h1 hne] at h2
  have := congrArg CourseElem.bsOriginal h2
  simp at this
  rw [← this] at h1
  simp [isUnsetMarker] at h1
  exact hne h1

lemma isUnsetMarker_false_cases (b : Option String) (h : isUnsetMarker b = false) :
    ∃ o, b = some o ∧ o ≠ "" := by
  cases b with
  | none => simp [isUnsetMarker] at h
  | some s =>
      simp [isUnsetMarker] at h
      exact ⟨s, rfl, h⟩

lemma captureOriginal_bsOriginal_of_fresh (e : CourseElem)
    (h1 : isUnsetMarker e.bsOriginal = true) (h2 : jsTrim e.visibleText ≠ "") :
    (captureOriginal e).bsOriginal = some (jsTrim e.visibleText) := by
  rw [captureOriginal_of_fresh e h1 h2]

/-- After a first guarded write of display name `d` into a fully captured
element, the next synchronization pass performs zero writes. -/
lemma second_pass_zero (names : List (String × String)) (e1 : CourseElem) (d : String)
    (hcap : captureOriginal e1 = e1)
    (hd : displayNameOf (lookupStr names e1.id) e1.bsOriginal = some d)
    (hdt : jsTrim e1.visibleText = d ∨ jsTrim d = d) :
    (syncElem names (syncWrites e1 d).1).2 = 0 := by
  have hdne : d ≠ "" := displayNameOf_ne_empty _ _ d hd
  by_cases hm : isUnsetMarker e1.bsOriginal
  · -- marker still unset after capture: the pass saw empty visible text,
    -- so the display name comes from the override map
    have ht : jsTrim e1.visibleText = "" := captureOriginal_unset_trim e1 hm hcap
    have hcust : lookupStr names e1.id = some d := by
      have hbo : truthyOpt e1.bsOriginal = none := truthyOpt_of_unset _ hm
      unfold displayNameOf at hd
      cases hc : truthyOpt (lookupStr names e1.id) with
      | none => rw [hc, hbo] at hd; simp at hd
      | some c =>
          rw [hc] at hd
          simp at hd
          exact hd ▸ truthyOpt_eq_some _ c hc
    have hdt' : jsTrim d = d := by
      rcases hdt with h | h
      · exact absurd (ht ▸ h.symm) hdne
      · exact h
    have hv : (syncWrites e1 d).1.visibleText = d := by
      rw [syncWrites_fst_visibleText]
      simp [ht, Ne.symm hdne]
    have hm' : isUnsetMarker (syncWrites e1 d).1.bsOriginal = true := by
      rw [syncWrites_fst_bsOriginal]; exact hm
    have hbo2 : (captureOriginal (syncWrites e1 d).1).bsOriginal = some d := by
      rw [captureOriginal_bsOriginal_of_fresh _ hm' (by rw [hv, hdt']; exact hdne), hv, hdt']
    have hd2 : displayNameOf (lookupStr names (captureOriginal (syncWrites e1 d).1).id)
        (captureOriginal (syncWrites e1 d).1).bsOriginal = some d := by
      rw [captureOriginal_id, syncWrites_fst_id]
      exact displayNameOf_custom _ _ d hcust hdne
    rw [syncElem_eq_some names (syncWrites e1 d).1 d hd2, syncWrites_snd,
      captureOriginal_visibleText, captureOriginal_textAttr, syncWrites_fst_textAttr, hv, hdt']
    simp
  · -- marker already set: capture is a no-op and the same display name recurs
    obtain ⟨o, ho, hone⟩ := isUnsetMarker_false_cases _ (by simpa using hm)
    have hd2 : displayNameOf (lookupStr names (captureOriginal (syncWrites e1 d).1).id)
        (captureOriginal (syncWrites e1 d).1).bsOriginal = some d := by
      have hcap' : captureOriginal (syncWrites e1 d).1 = (syncWrites e1 d).1 :=
        captureOriginal_of_set _ o (by rw [syncWrites_fst_bsOriginal]; exact ho) hone
      rw [hcap', syncWrites_fst_id, syncWrites_fst_bsOriginal]
      exact hd
    rw [syncElem_eq_some names (syncWrites e1 d).1 d hd2, syncWrites_snd,
      captureOriginal_visibleText, captureOriginal_textAttr, syncWrites_fst_textAttr,
      syncWrites_fst_visibleText]
    by_cases h1 : jsTrim e1.visibleText = d
    · simp [h1]
    · have hdt' : jsTrim d = d := by
        rcases hdt with h | h
        · exact absurd h h1
        · exact h
      simp [h1, hdt']

/-- Running one element through the pass twice with the same override map
performs zero writes the second time, provided the override values and any
pre-captured original are already trimmed strings (which every value written
through the popup save path is). -/
lemma syncElem_idem (names : List (String × String)) (e : CourseElem)
    (hn : ∀ p ∈ names, jsTrim p.2 = p.2)
    (ho : ∀ o, e.bsOriginal = some o → jsTrim o = o) :
    (syncElem names (syncElem names e).1).2 = 0 := by
  cases hmatch : displayNameOf (lookupStr names (captureOriginal e).id)
      (captureOriginal e).bsOriginal with
  | none =>
      rw [syncElem_eq_none names e hmatch]
      have hmatch2 : displayNameOf (lookupStr names (captureOriginal (captureOriginal e)).id)
          (captureOriginal (captureOriginal e)).bsOriginal = none := by
        rw [captureOriginal_idem]; exact hmatch
      rw [syncElem_eq_none names (captureOriginal e) hmatch2]
  | some d =>
      rw [syncElem_eq_some names e d hmatch]
      have hd : displayNameOf (lookupStr names (captureOriginal e).id)
          (captureOriginal e).bsOriginal = some d := hmatch
      have hdt : jsTrim (captureOriginal e).visibleText = d ∨ jsTrim d = d := by
        unfold displayNameOf at hmatch
        cases hc : truthyOpt (lookupStr names (captureOriginal e).id) with
        | some c =>
            rw [hc] at hmatch
            simp at hmatch
            subst hmatch
            have hlk : lookupStr names (captureOriginal e).id = some c :=
              truthyOpt_eq_some _ c hc
            obtain ⟨p, hp, hpv⟩ := lookupStr_mem names _ c hlk
            exact Or.inr (hpv ▸ hn p hp)
        | none =>
            rw [hc] at hmatch
            have horig : (captureOriginal e).bsOriginal = some d :=
              truthyOpt_eq_some _ d hmatch
            rcases captureOriginal_bsOriginal_cases e with hsame | hcaptured
            · rw [hsame] at horig
              exact Or.inr (ho d horig)
            · rw [hcaptured] at horig
              simp at horig
              rw [captureOriginal_visibleText, horig]
              exact Or.inl rfl
      exact second_pass_zero names (captureOriginal e) d (captureOriginal_idem e)
        (by rwa [captureOriginal_id] at hd) hdt

/-- C1.  Idempotence of the synchronization pass: both DOM writes are
guarded by value comparison, and a second run of `applyAllNames` with the
same override map and the originals captured by the first run performs zero
additional DOM writes.  The hypotheses record the system invariants that
override values are stored trimmed (the popup trims every pending edit) and
that any previously captured original is a trimmed string (capture always
stores trimmed text). -/
theorem sync_idempotent (names : List (String × String)) (es : List CourseElem)
    (hn : ∀ p ∈ names, jsTrim p.2 = p.2)
    (ho : ∀ e ∈ es, ∀ o, e.bsOriginal = some o → jsTrim o = o) :
    (applyAllNames names (applyAllNames names es).1).2 = 0 := by
  unfold applyAllNames
  simp only [List.map_map]
  apply List.sum_eq_zero
  intro x hx
  simp only [List.mem_map, Function.comp] at hx
  obtain ⟨e, he, hex⟩ := hx
  rw [← hex]
  exact syncElem_idem names e hn (ho e he)

/-- Closed instance of C1: one element renamed by an override, one element
showing its captured original; the second pass performs zero writes. -/
theorem sync_idempotent_witness :
    (applyAllNames [("1", "CS 101")]
        (applyAllNames [("1", "CS 101")]
          [⟨"1", "Old Name", none, none⟩, ⟨"2", "Physics", some "Physics", none⟩]).1).2 = 0 :=
  sync_idempotent [("1", "CS 101")]
    [⟨"1", "Old Name", none, none⟩, ⟨"2", "Physics", some "Physics", none⟩]
    (by decide) (by decide)

/-- Set of characters accepted by the character class `[0-9a-fA-F]`. -/
def isHexDigitChar (c : Char) : Bool :=
  c.isDigit || ('a' ≤ c && c ≤ 'f') || ('A' ≤ c && c ≤ 'F')

/-- The regular-expression test `/^[0-9a-fA-F]{6}$/.test(val)`. -/
def testBareHex6 (s : String) : Bool :=
  s.data.length = 6 && s.data.all isHexDigitChar

/-- The regular-expression test `HEX_RE.test(val)` with
`HEX_RE = /^#[0-9a-fA-F]{6}$/` (`src/content.js` line 215,
`src/unnamed/part_000` line 20). -/
def testHexRE (s : String) : Bool :=
  match s.data with
  | c :: rest => c = '#' && (rest.length = 6 && rest.all isHexDigitChar)
  | [] => false

/-- JavaScript `String.prototype.toLowerCase` restricted to the ASCII rule
(the only inputs the source lowercases are already validated `#rrggbb`
strings): uppercase ASCII letters are shifted to lowercase, every other
character is unchanged. -/
def charToLower (c : Char) : Char :=
  if 'A' ≤ c ∧ c ≤ 'Z' then Char.ofNat (c.toNat + 32) else c

/-- `val.toLowerCase()` lifted to the character list. -/
def toLowerStr (s : String) : String := String.mk (s.data.map charToLower)

/-- `normalizeHex` (`src/content.js` lines 227-233, `src/unnamed/part_000`
lines 122-127): trim, accept a bare 6-hex-digit value by prefixing `#`
(letter case preserved), accept a `#`-prefixed 6-hex-digit value by
lowercasing it, reject everything else with `null`. -/
def normalizeHex (raw : String) : Option String :=
  if testBareHex6 (jsTrim raw) then some ("#" ++ jsTrim raw)
  else if testHexRE (jsTrim raw) then some (toLowerStr (jsTrim raw))
  else none

example : normalizeHex "4d9de0" = some "#4d9de0" := by decide
example : normalizeHex " #4D9DE0 " = some "#4d9de0" := by decide
example : normalizeHex "12345" = none := by decide
example : normalizeHex "#12345g" = none := by decide

/-- C3 counterexample: the claim says every valid 6-hex-digit input — with
or without a leading `#` — normalizes to the canonical lowercase
`#`-prefixed form, but the bare-digit branch of `normalizeHex` prefixes `#`
without lowercasing, so the uppercase input `"ABCDEF"` produces
`"#ABCDEF"`, not the canonical `"#abcdef"`. -/
theorem normalizeHex_lowercase_cex :
    (normalizeHex "ABCDEF" = some "#ABCDEF" ∧
      toLowerStr "#ABCDEF" = "#abcdef" ∧ ("#ABCDEF" : String) ≠ "#abcdef") := by
  decide

lemma testHexRE_not_bare (s : String) (h : testHexRE s = true) : testBareHex6 s = false := by
  unfold testHexRE at h
  unfold testBareHex6
  cases hd : s.data with
  | nil => rw [hd] at h; simp at h
  | cons c rest =>
      rw [hd] at h
      simp at h
      obtain ⟨hc, -, -⟩ := h
      subst hc
      have hhash : isHexDigitChar '#' = false := by decide
      simp [hhash]

/-- C3 (amended).  `normalizeHex` characterization: a trimmed bare
6-hex-digit value maps to `#` ++ value with letter case preserved; a
trimmed `#`-prefixed 6-hex-digit value maps to its lowercase form; every
other input maps to `null`; and every accepted result is a 7-character
string starting with `#`. -/
theorem normalizeHex_characterization (s : String) :
    ((testBareHex6 (jsTrim s) = true → normalizeHex s = some ("#" ++ jsTrim s)) ∧
      (testHexRE (jsTrim s) = true → normalizeHex s = some (toLowerStr (jsTrim s))) ∧
      (normalizeHex s = none ↔
        (testBareHex6 (jsTrim s) = false ∧ testHexRE (jsTrim s) = false)) ∧
      (∀ r, normalizeHex s = some r → r.data.length = 7 ∧ r.data.head? = some '#')) := by
  refine ⟨fun h => by simp [normalizeHex, h], fun h => ?_, ?_, ?_⟩
  · rw [normalizeHex]
    simp [testHexRE_not_bare _ h, h]
  · constructor
    · intro h
      by_cases h1 : testBareHex6 (jsTrim s) = true
      · simp [normalizeHex, h1] at h
      · by_cases h2 : testHexRE (jsTrim s) = true
        · simp [normalizeHex, h1, h2] at h
        · exact ⟨by simpa using h1, by simpa using h2⟩
    · intro ⟨h1, h2⟩
      simp [normalizeHex, h1, h2]
  · intro r hr
    by_cases h1 : testBareHex6 (jsTrim s) = true
    · rw [normalizeHex] at hr
      simp [h1] at hr
      subst hr
      unfold testBareHex6 at h1
      simp at h1
      cases hd : (jsTrim s) with
      | mk l =>
          constructor
          · show (String.mk ('#' :: l)).data.length = 7
            have : l.length = 6 := by rw [hd] at h1; simpa using h1.1
            simp [this]
          · rfl
    · by_cases h2 : testHexRE (jsTrim s) = true
      · rw [normalizeHex] at hr
        simp [h1, h2] at hr
        subst hr
        unfold testHexRE at h2
        cases hd : (jsTrim s).data with
        | nil => rw [hd] at h2; simp at h2
        | cons c rest =>
            rw [hd] at h2
            simp at h2
            obtain ⟨hc, hlen, -⟩ := h2
            subst hc
            constructor
            · show ((jsTrim s).data.map charToLower).length = 7
              rw [hd]
              simp [hlen]
            · show ((jsTrim s).data.map charToLower).head? = some '#'
              rw [hd]
              simp
              decide
      · rw [normalizeHex] at hr
        simp [h1, h2] at hr

/-- Closed instance of C3 (amended): a bare lowercase value gains the `#`
prefix. -/
theorem normalizeHex_characterization_witness :
    normalizeHex " 4d9de0" = some "#4d9de0" :=
  (normalizeHex_characterization " 4d9de0").1 (by decide)

/-- The four named color slots of a theme palette, in the order of
`GROUPS` / `THEME_GROUPS` (`background, surface, border, accent`). -/
structure ThemeColors where
  background : String
  surface : String
  border : String
  accent : String
deriving Repr, DecidableEq

/-- `DEFAULT_THEME` (`src/content.js` lines 207-212, `src/popup.js` lines
350-355, `src/unnamed/part_000` lines 13-18). -/
def DEFAULT_THEME : ThemeColors :=
  ⟨"#121212", "#1e1e1e", "#2d2d2d", "#4d9de0"⟩

/-- `readCurrentColors` (`src/content.js` lines 243-250): normalize each
input field, falling back to the default palette entry when normalization
fails. -/
def readCurrentColors (inputs : ThemeColors) : ThemeColors :=
  ⟨(normalizeHex inputs.background).getD DEFAULT_THEME.background,
    (normalizeHex inputs.surface).getD DEFAULT_THEME.surface,
    (normalizeHex inputs.border).getD DEFAULT_THEME.border,
    (normalizeHex inputs.accent).getD DEFAULT_THEME.accent⟩

/-- `save` (`src/content.js` lines 272-291): validate every slot first; if
any slot fails to normalize, return without persisting or broadcasting
(modelled by `none`); otherwise the inputs are normalized in place
(`setRow`), read back through `readCurrentColors`, persisted and broadcast
(modelled by `some` of the persisted palette). -/
def save (inputs : ThemeColors) : Option ThemeColors :=
  match normalizeHex inputs.background, normalizeHex inputs.surface,
      normalizeHex inputs.border, normalizeHex inputs.accent with
  | some b, some s, some bd, some a => some (readCurrentColors ⟨b, s, bd, a⟩)
  | _, _, _, _ => none

/-- The apply handler of `initTheme` (`src/unnamed/part_000` lines 177-195):
validate every slot, return without persisting or broadcasting when any
fails (`none`), otherwise persist and broadcast the normalized palette. -/
def themeApply (inputs : ThemeColors) : Option ThemeColors :=
  match normalizeHex inputs.background, normalizeHex inputs.surface,
      normalizeHex inputs.border, normalizeHex inputs.accent with
  | some b, some s, some bd, some a => some ⟨b, s, bd, a⟩
  | _, _, _, _ => none

/-- C4.  Palette updates are all-or-nothing, in both the dedicated theme
popup (`save`) and the main popup's theme panel (`themeApply`): the
operation persists and broadcasts nothing exactly when some slot fails hex
validation, and otherwise persists the complete palette in which every slot
is the normalization of the corresponding input; no partial palette exists
(the result type admits only `none` or a full four-slot record). -/
theorem palette_all_or_nothing (inputs : ThemeColors) :
    ((save inputs = none ↔
        (normalizeHex inputs.background = none ∨ normalizeHex inputs.surface = none ∨
          normalizeHex inputs.border = none ∨ normalizeHex inputs.accent = none)) ∧
      (themeApply inputs = none ↔
        (normalizeHex inputs.background = none ∨ normalizeHex inputs.surface = none ∨
          normalizeHex inputs.border = none ∨ normalizeHex inputs.accent = none)) ∧
      (∀ b s bd a, normalizeHex inputs.background = some b →
        normalizeHex inputs.surface = some s → normalizeHex inputs.border = some bd →
        normalizeHex inputs.accent = some a →
        (save inputs = some (readCurrentColors ⟨b, s, bd, a⟩) ∧
          themeApply inputs = some ⟨b, s, bd, a⟩))) := by
  refine ⟨?_, ?_, ?_⟩
  · cases hb : normalizeHex inputs.background <;>
      cases hs : normalizeHex inputs.surface <;>
        cases hbd : normalizeHex inputs.border <;>
          cases ha : normalizeHex inputs.accent <;>
            simp [save, hb, hs, hbd, ha]
  · cases hb : normalizeHex inputs.background <;>
      cases hs : normalizeHex inputs.surface <;>
        cases hbd : normalizeHex inputs.border <;>
          cases ha : normalizeHex inputs.accent <;>
            simp [themeApply, hb, hs, hbd, ha]
  · intro b s bd a hb hs hbd ha
    exact ⟨by simp [save, hb, hs, hbd, ha], by simp [themeApply, hb, hs, hbd, ha]⟩

/-- Closed instance of C4: one invalid slot rejects the whole palette, and
a fully valid palette is persisted with every slot normalized (matching
end-to-end scenario B, `accent = "4d9de0"`). -/
theorem palette_all_or_nothing_witness :
    (save ⟨"121212", "1e1e1e", "not-a-color", "4d9de0"⟩ = none ∧
      themeApply ⟨"121212", "1e1e1e", "2d2d2d", "4d9de0"⟩ =
        some ⟨"#121212", "#1e1e1e", "#2d2d2d", "#4d9de0"⟩) :=
  ⟨(palette_all_or_nothing ⟨"121212", "1e1e1e", "not-a-color", "4d9de0"⟩).1.mpr
      (Or.inr (Or.inr (Or.inl (by decide)))),
    ((palette_all_or_nothing ⟨"121212", "1e1e1e", "2d2d2d", "4d9de0"⟩).2.2
        "#121212" "#1e1e1e" "#2d2d2d" "#4d9de0"
        (by decide) (by decide) (by decide) (by decide)).2⟩

/-- A value stored in `chrome.storage.local`: name overrides are strings
under numeric-string keys, the dark-mode flag is a boolean under
`"darkMode"`, and the palette object lives under `"themeColors"`. -/
inductive StoredValue where
  | str : String → StoredValue
  | flag : Bool → StoredValue
  | theme : ThemeColors → StoredValue
deriving Repr, DecidableEq

/-- The flat key-value contents of `chrome.storage.local`, modelled as an
association list (key order is irrelevant to every lookup the code does). -/
def Storage := List (String × StoredValue)

/-- Object property read `st[k]` on the storage object. -/
def lookupVal (st : List (String × StoredValue)) (k : String) : Option StoredValue :=
  (st.find? (fun p => p.1 = k)).map (fun p => p.2)

/-- JavaScript `delete allNames[id]`. -/
def delKey (st : List (String × StoredValue)) (k : String) :
    List (String × StoredValue) :=
  st.filter (fun p => decide (p.1 ≠ k))

/-- JavaScript `allNames[id] = name` (position of the key is irrelevant to
lookup, so re-insertion at the end models assignment). -/
def setKey (st : List (String × StoredValue)) (k : String) (v : StoredValue) :
    List (String × StoredValue) :=
  delKey st k ++ [(k, v)]

/-- One iteration of the merge loop in `saveNames` (`src/popup.js` lines
80-86, `src/unnamed/part_000` lines 81-87): an empty pending edit deletes
the key, a non-empty one assigns it. -/
def editStep (acc : List (String × StoredValue)) (p : String × String) :
    List (String × StoredValue) :=
  if p.2 = "" then delKey acc p.1 else setKey acc p.1 (StoredValue.str p.2)

/-- The in-memory merge of `saveNames`: pending edits applied on top of a
copy (`allNames = { ...existing }`) of the entire storage snapshot.  This
is the object later passed to `chrome.storage.local.set` and, filtered to
numeric keys, sent with APPLY_NAMES. -/
def saveNamesEdits (existing : List (String × StoredValue))
    (edits : List (String × String)) : List (String × StoredValue) :=
  edits.foldl editStep existing

/-- The regular-expression test `/^\d+$/.test(k)` used to single out
course-id keys. -/
def isNumericKey (k : String) : Bool :=
  !k.data.isEmpty && k.data.all Char.isDigit

/-- `Object.fromEntries(Object.entries(x).filter(([k]) => /^\d+$/.test(k)))`
— the numeric-key filter used both by `loadSavedNames` (`src/content.js`
lines 10-15, `src/popup.js` lines 162-167) and for the `courseNames` map
sent with APPLY_NAMES after a save (`src/popup.js` lines 91-93). -/
def filterCourseKeys (st : List (String × StoredValue)) : List (String × StoredValue) :=
  st.filter (fun p => isNumericKey p.1)

lemma find?_delKey_self (st : List (String × StoredValue)) (k : String) :
    (delKey st k).find? (fun p => p.1 = k) = none := by
  unfold delKey
  rw [List.find?_filter]
  rw [List.find?_eq_none]
  intro p _
  by_cases hp : p.1 = k <;> simp [hp]

lemma find?_delKey_other (st : List (String × StoredValue)) (k k' : String)
    (h : k' ≠ k) :
    (delKey st k).find? (fun p => p.1 = k') = st.find? (fun p => p.1 = k') := by
  unfold delKey
  rw [List.find?_filter]
  have hfun : (fun (p : String × StoredValue) =>
      decide (decide (p.1 ≠ k) = true ∧ decide (p.1 = k') = true)) =
      fun (p : String × StoredValue) => decide (p.1 = k') := by
    funext p
    by_cases hp : p.1 = k'
    · simp [hp, h]
    · simp [hp]
  rw [hfun]

lemma lookupVal_delKey_self (st : List (String × StoredValue)) (k : String) :
    lookupVal (delKey st k) k = none := by
  unfold lookupVal
  rw [find?_delKey_self]
  rfl

lemma lookupVal_delKey_other (st : List (String × StoredValue)) (k k' : String)
    (h : k' ≠ k) : lookupVal (delKey st k) k' = lookupVal st k' := by
  unfold lookupVal
  rw [find?_delKey_other st k k' h]

lemma lookupVal_setKey_self (st : List (String × StoredValue)) (k : String)
    (v : StoredValue) : lookupVal (setKey st k v) k = some v := by
  unfold setKey lookupVal
  rw [List.find?_append, find?_delKey_self]
  simp

lemma lookupVal_setKey_other (st : List (String × StoredValue)) (k k' : String)
    (v : StoredValue) (h : k' ≠ k) :
    lookupVal (setKey st k v) k' = lookupVal st k' := by
  unfold setKey lookupVal
  rw [List.find?_append, find?_delKey_other st k k' h]
  have h2 : ([(k, v)].find? (fun p => p.1 = k') : Option (String × StoredValue)) = none := by
    rw [List.find?_eq_none]
    intro p hp
    simp at hp
    subst hp
    simp
    exact fun hh => h hh.symm
  rw [h2]
  cases st.find? (fun p => p.1 = k') <;> rfl

lemma lookupVal_editStep_other (acc : List (String × StoredValue)) (p : String × String)
    (k : String) (h : k ≠ p.1) : lookupVal (editStep acc p) k = lookupVal acc k := by
  unfold editStep
  by_cases hv : p.2 = ""
  · rw [if_pos hv]
    exact lookupVal_delKey_other acc p.1 k h
  · rw [if_neg hv]
    exact lookupVal_setKey_other acc p.1 k _ h

lemma lookupVal_saveNamesEdits_untouched (edits : List (String × String))
    (st : List (String × StoredValue)) (k : String) (h : ∀ e ∈ edits, e.1 ≠ k) :
    lookupVal (saveNamesEdits st edits) k = lookupVal st k := by
  induction edits generalizing st with
  | nil => rfl
  | cons p rest ih =>
      have hk : k ≠ p.1 := fun hh => (h p (List.mem_cons_self p rest)) hh.symm
      have hstep : lookupVal (editStep st p) k = lookupVal st k :=
        lookupVal_editStep_other st p k hk
      have htail := ih (editStep st p) (fun e he => h e (List.mem_cons_of_mem p he))
      show lookupVal (saveNamesEdits (editStep st p) rest) k = lookupVal st k
      rw [htail, hstep]

lemma mem_editStep (acc : List (String × StoredValue)) (p : String × String)
    (q : String × StoredValue) (h : q ∈ editStep acc p) :
    q ∈ acc ∨ (p.2 ≠ "" ∧ q = (p.1, StoredValue.str p.2)) := by
  unfold editStep at h
  by_cases hv : p.2 = ""
  · rw [if_pos hv] at h
    exact Or.inl (List.mem_of_mem_filter h)
  · rw [if_neg hv] at h
    unfold setKey at h
    rcases List.mem_append.mp h with h1 | h2
    · exact Or.inl (List.mem_of_mem_filter h1)
    · simp at h2
      exact Or.inr ⟨hv, by rw [h2]⟩

lemma tail_nodup_keys (p : String × String) (rest : List (String × String))
    (h : ((p :: rest).map Prod.fst).Nodup) :
    p.1 ∉ rest.map Prod.fst ∧ (rest.map Prod.fst).Nodup := by
  rw [List.map_cons] at h
  exact List.nodup_cons.mp h

lemma saveNamesEdits_del (edits : List (String × String))
    (existing : List (String × StoredValue)) (id : String)
    (hnodup : (edits.map Prod.fst).Nodup) (hmem : (id, "") ∈ edits) :
    lookupVal (saveNamesEdits existing edits) id = none := by
  induction edits generalizing existing with
  | nil => simp at hmem
  | cons p rest ih =>
      rcases List.mem_cons.mp hmem with hp | hp
      · have hid : p = (id, "") := hp.symm
        have hrest : ∀ e ∈ rest, e.1 ≠ id := by
          intro e he heq
          exact (tail_nodup_keys p rest hnodup).1
            (hid ▸ heq ▸ List.mem_map.mpr ⟨e, he, rfl⟩)
        show lookupVal (saveNamesEdits (editStep existing p) rest) id = none
        rw [lookupVal_saveNamesEdits_untouched rest _ id hrest, hid]
        show lookupVal (if "" = "" then delKey existing id
          else setKey existing id (StoredValue.str "")) id = none
        rw [if_pos rfl]
        exact lookupVal_delKey_self existing id
      · exact ih (editStep existing p) (tail_nodup_keys p rest hnodup).2 hp

lemma saveNamesEdits_set (edits : List (String × String))
    (existing : List (String × StoredValue)) (id v : String)
    (hnodup : (edits.map Prod.fst).Nodup) (hmem : (id, v) ∈ edits) (hv : v ≠ "") :
    lookupVal (saveNamesEdits existing edits) id = some (StoredValue.str v) := by
  induction edits generalizing existing with
  | nil => simp at hmem
  | cons p rest ih =>
      rcases List.mem_cons.mp hmem with hp | hp
      · have hid : p = (id, v) := hp.symm
        have hrest : ∀ e ∈ rest, e.1 ≠ id := by
          intro e he heq
          exact (tail_nodup_keys p rest hnodup).1
            (hid ▸ heq ▸ List.mem_map.mpr ⟨e, he, rfl⟩)
        show lookupVal (saveNamesEdits (editStep existing p) rest) id =
          some (StoredValue.str v)
        rw [lookupVal_saveNamesEdits_untouched rest _ id hrest, hid]
        show lookupVal (if v = "" then delKey existing id
          else setKey existing id (StoredValue.str v)) id = some (StoredValue.str v)
        rw [if_neg hv]
        exact lookupVal_setKey_self existing id (StoredValue.str v)
      · exact ih (editStep existing p) (tail_nodup_keys p rest hnodup).2 hp

lemma saveNamesEdits_no_empty (edits : List (String × String))
    (existing : List (String × StoredValue))
    (hex : ∀ p ∈ existing, p.2 ≠ StoredValue.str "") :
    ∀ p ∈ saveNamesEdits existing edits, p.2 ≠ StoredValue.str "" := by
  induction edits generalizing existing with
  | nil => exact hex
  | cons q rest ih =>
      intro p hp
      refine ih (editStep existing q) ?_ p hp
      intro r hr
      rcases mem_editStep existing q r hr with h1 | h2
      · exact hex r h1
      · rw [h2.2]
        intro hcon
        exact h2.1 (by simpa using hcon)

/-- `chrome.storage.local.set(obj)`: every key present in `obj` is written
into storage, and keys of the store absent from `obj` are left untouched —
`set` never removes a key, and no `chrome.storage.local.remove` call exists
anywhere in the sources. -/
def storageSet (st obj : List (String × StoredValue)) : List (String × StoredValue) :=
  obj.foldl (fun acc p => setKey acc p.1 p.2) st

/-- The complete persistence path of `saveNames` (`src/popup.js` lines
75-103, `src/unnamed/part_000` lines 77-101): read the whole store, merge
the pending edits into the in-memory copy, then
`chrome.storage.local.set(allNames)`. -/
def saveNamesPersist (storage : List (String × StoredValue))
    (edits : List (String × String)) : List (String × StoredValue) :=
  storageSet storage (saveNamesEdits storage edits)

/-- A key that is absent from the object handed to `storage.local.set`
keeps its previous binding in the store: `set` updates, it never removes. -/
lemma lookupVal_storageSet_untouched (obj st : List (String × StoredValue))
    (k : String) (h : ∀ p ∈ obj, p.1 ≠ k) :
    lookupVal (storageSet st obj) k = lookupVal st k := by
  induction obj generalizing st with
  | nil => rfl
  | cons p rest ih =>
      have hk : k ≠ p.1 := fun hh => (h p (List.mem_cons_self p rest)) hh.symm
      have hstep : lookupVal (setKey st p.1 p.2) k = lookupVal st k :=
        lookupVal_setKey_other st p.1 k p.2 hk
      have htail := ih (setKey st p.1 p.2) (fun e he => h e (List.mem_cons_of_mem p he))
      show lookupVal (storageSet (setKey st p.1 p.2) rest) k = lookupVal st k
      rw [htail, hstep]

/-- C6.  The deletion half of the claim fails at the persistence boundary:
with storage holding override `"5" → "Old 5"` and the user clearing that
override (pending edit `"5" → ""`) and saving, `delete allNames["5"]`
removes the key only from the in-memory copy, and
`chrome.storage.local.set(allNames)` — which never removes keys — leaves
the stored entry intact.  The in-memory merge (and hence the APPLY_NAMES
map of the current session) has dropped the entry, so the display reverts
until the next load, when `loadSavedNames` re-reads storage and the
"deleted" override returns.  A non-empty edit, by contrast, is persisted
as the claim says. -/
theorem empty_override_not_persisted :
    (lookupVal (saveNamesPersist [("5", StoredValue.str "Old 5")] [("5", "")]) "5" =
        some (StoredValue.str "Old 5") ∧
      lookupVal (saveNamesEdits [("5", StoredValue.str "Old 5")] [("5", "")]) "5" = none ∧
      lookupVal (saveNamesPersist [("5", StoredValue.str "Old 5")] [("5", "New 5")]) "5" =
        some (StoredValue.str "New 5")) := by
  decide

/-- C10.  Override-key separation: the numeric-key filter used by
`loadSavedNames` at startup and for the `courseNames` map sent with
APPLY_NAMES after a save keeps exactly the stored entries whose keys are
all decimal digits, and a name save whose pending-edit keys are all numeric
(course ids are extracted by `/\d+/`) leaves every non-numeric reserved key
(`"darkMode"`, `"themeColors"`) bound to its previous value. -/
theorem override_key_separation (st : List (String × StoredValue))
    (edits : List (String × String)) :
    ((∀ k v, ((k, v) ∈ filterCourseKeys st ↔ ((k, v) ∈ st ∧ isNumericKey k = true))) ∧
      (∀ k v, ((k, v) ∈ filterCourseKeys (saveNamesEdits st edits) ↔
        ((k, v) ∈ saveNamesEdits st edits ∧ isNumericKey k = true))) ∧
      ((∀ e ∈ edits, isNumericKey e.1 = true) → ∀ k, isNumericKey k = false →
        lookupVal (saveNamesEdits st edits) k = lookupVal st k)) := by
  refine ⟨?_, ?_, ?_⟩
  · intro k v
    unfold filterCourseKeys
    rw [List.mem_filter]
  · intro k v
    unfold filterCourseKeys
    rw [List.mem_filter]
  · intro hedits k hk
    refine lookupVal_saveNamesEdits_untouched edits st k ?_
    intro e he heq
    have := hedits e he
    rw [heq, hk] at this
    exact Bool.false_ne_true this

/-- Closed instance of C10: with storage holding the dark-mode flag, one
course override, and the palette, the filtered map contains the numeric
entry and a save touching only course id "123" leaves `"darkMode"`
unchanged. -/
theorem override_key_separation_witness :
    (("123", StoredValue.str "Algebra") ∈ filterCourseKeys
        [("darkMode", StoredValue.flag true), ("123", StoredValue.str "Algebra"),
          ("themeColors", StoredValue.theme DEFAULT_THEME)] ∧
      lookupVal (saveNamesEdits
          [("darkMode", StoredValue.flag true), ("123", StoredValue.str "Algebra"),
            ("themeColors", StoredValue.theme DEFAULT_THEME)] [("123", "CS 101")])
          "darkMode" =
        lookupVal [("darkMode", StoredValue.flag true), ("123", StoredValue.str "Algebra"),
          ("themeColors", StoredValue.theme DEFAULT_THEME)] "darkMode") :=
  ⟨((override_key_separation
        [("darkMode", StoredValue.flag true), ("123", StoredValue.str "Algebra"),
          ("themeColors", StoredValue.theme DEFAULT_THEME)] [("123", "CS 101")]).1
        "123" (StoredValue.str "Algebra")).mpr ⟨by decide, by decide⟩,
    (override_key_separation
        [("darkMode", StoredValue.flag true), ("123", StoredValue.str "Algebra"),
          ("themeColors", StoredValue.theme DEFAULT_THEME)] [("123", "CS 101")]).2.2
      (by decide) "darkMode" (by decide)⟩

/-- `CARD_GRADIENTS` (`src/popup.js` lines 260-269): the fixed 8-entry
gradient palette. -/
def CARD_GRADIENTS : List String :=
  ["linear-gradient(135deg, #f093fb 0%, #f5576c 100%)",
    "linear-gradient(135deg, #4facfe 0%, #00f2fe 100%)",
    "linear-gradient(135deg, #43e97b 0%, #38f9d7 100%)",
    "linear-gradient(135deg, #fa709a 0%, #fee140 100%)",
    "linear-gradient(135deg, #a18cd1 0%, #fbc2eb 100%)",
    "linear-gradient(135deg, #fccb90 0%, #d57eeb 100%)",
    "linear-gradient(135deg, #a1c4fd 0%, #c2e9fb 100%)",
    "linear-gradient(135deg, #84fab0 0%, #8fd3f4 100%)"]

/-- `parseInt(courseId, 10)` restricted to all-digit id strings — the only
ids the engine produces, since `extractCourseId` matches `/\d+/`; any other
string yields NaN in the source, modelled as `none`.  (Machine floats never
round here because course ids are far below 2^53.) -/
def parseDecimal (s : String) : Option Nat :=
  if s ≠ "" ∧ s.data.all Char.isDigit then
    some (s.data.foldl (fun n c => 10 * n + (c.toNat - '0'.toNat)) 0)
  else none

/-- `getCardGradient` (`src/popup.js` lines 271-273):
`CARD_GRADIENTS[parseInt(courseId, 10) % CARD_GRADIENTS.length]`. -/
def getCardGradient (courseId : String) : Option String :=
  (parseDecimal courseId).bind (fun n => CARD_GRADIENTS.get? (n % CARD_GRADIENTS.length))

/-- C9.  Deterministic enhancement assignment: for a numeric id parsing to
`n`, the assigned variant is exactly the gradient at index `n mod 8` of the
fixed 8-entry palette, and such a variant always exists; the assignment is
a pure function of the id alone (no state appears in its definition), hence
identical across repeated calls and reapplications. -/
theorem enhancement_assignment (courseId : String) (n : Nat)
    (h : parseDecimal courseId = some n) :
    (CARD_GRADIENTS.length = 8 ∧
      getCardGradient courseId = CARD_GRADIENTS.get? (n % 8) ∧
      ∃ g, getCardGradient courseId = some g) := by
  have hlen : CARD_GRADIENTS.length = 8 := by decide
  have hg : getCardGradient courseId = CARD_GRADIENTS.get? (n % 8) := by
    unfold getCardGradient
    rw [h, hlen]
    rfl
  refine ⟨hlen, hg, ?_⟩
  have hlt : n % 8 < CARD_GRADIENTS.length := by
    rw [hlen]
    exact Nat.mod_lt n (by norm_num)
  rcases List.get?_eq_get hlt with hsome
  exact ⟨_, by rw [hg, hsome]⟩

/-- Closed instance of C9: id `"12345"` deterministically picks the
gradient at index 12345 mod 8 = 1. -/
theorem enhancement_assignment_witness :
    getCardGradient "12345" = CARD_GRADIENTS.get? (12345 % 8) :=
  (enhancement_assignment "12345" 12345 (by decide)).2.1

/-- A render scope (`document.body` or a shadow root), identified by a
token standing for its object identity, together with the scopes already
nested inside it (hosts with a `shadowRoot` reachable by
`querySelectorAll`). -/
inductive ScopeTree where
  | node : Nat → List ScopeTree → ScopeTree

/-- The watcher's state: `observed` models the `observedRoots` WeakSet and
`subs` records one entry per `new MutationObserver(...).observe(...)`
subscription ever attached. -/
structure WatchState where
  observed : List Nat
  subs : List Nat

/-- `observeRoot` (`src/content.js` lines 172-188, `src/popup.js` lines
585-601) processed over a work list of scope roots: an already-observed
root returns immediately (no subscription, no recursion); a fresh root is
added to the set, gets exactly one subscription, and its existing
descendant scopes are visited recursively. -/
def observeList : List ScopeTree → WatchState → WatchState
  | [], s => s
  | ScopeTree.node i cs :: rest, s =>
      if i ∈ s.observed then observeList rest s
      else observeList rest (observeList cs ⟨i :: s.observed, i :: s.subs⟩)

/-- A single `observeRoot(root)` call. -/
def observeRoot (t : ScopeTree) (s : WatchState) : WatchState := observeList [t] s

/-- All scope identities in a forest. -/
def scopeIdsList : List ScopeTree → List Nat
  | [] => []
  | ScopeTree.node i cs :: rest => i :: (scopeIdsList cs ++ scopeIdsList rest)

/-- All scope identities in one scope tree. -/
def scopeIds (t : ScopeTree) : List Nat := scopeIdsList [t]

lemma observeList_nil (s : WatchState) : observeList [] s = s := by
  simp [observeList]

lemma observeList_cons_mem (i : Nat) (cs rest : List ScopeTree) (s : WatchState)
    (h : i ∈ s.observed) :
    observeList (ScopeTree.node i cs :: rest) s = observeList rest s := by
  simp [observeList, h]

lemma observeList_cons_notmem (i : Nat) (cs rest : List ScopeTree) (s : WatchState)
    (h : i ∉ s.observed) :
    observeList (ScopeTree.node i cs :: rest) s =
      observeList rest (observeList cs ⟨i :: s.observed, i :: s.subs⟩) := by
  simp [observeList, h]

lemma scopeIdsList_cons (i : Nat) (cs rest : List ScopeTree) :
    scopeIdsList (ScopeTree.node i cs :: rest) =
      i :: (scopeIdsList cs ++ scopeIdsList rest) := by
  simp [scopeIdsList]

lemma observeList_mono (l : List ScopeTree) (s : WatchState) (j : Nat) :
    j ∈ s.observed → j ∈ (observeList l s).observed := by
  induction l, s using observeList.induct with
  | case1 s =>
      intro h
      rw [observeList_nil]
      exact h
  | case2 i cs rest s hm ih =>
      intro h
      rw [observeList_cons_mem i cs rest s hm]
      exact ih h
  | case3 i cs rest s hm ih1 ih2 =>
      intro h
      rw [observeList_cons_notmem i cs rest s hm]
      exact ih2 (ih1 (List.mem_cons_of_mem i h))

lemma observeList_observed_sub (l : List ScopeTree) (s : WatchState) (j : Nat) :
    j ∈ (observeList l s).observed → j ∈ scopeIdsList l ∨ j ∈ s.observed := by
  induction l, s using observeList.induct with
  | case1 s =>
      intro h
      rw [observeList_nil] at h
      exact Or.inr h
  | case2 i cs rest s hm ih =>
      intro h
      rw [observeList_cons_mem i cs rest s hm] at h
      rcases ih h with h1 | h2
      · rw [scopeIdsList_cons]
        exact Or.inl (List.mem_cons_of_mem i (List.mem_append_right _ h1))
      · exact Or.inr h2
  | case3 i cs rest s hm ih1 ih2 =>
      intro h
      rw [observeList_cons_notmem i cs rest s hm] at h
      rw [scopeIdsList_cons]
      rcases ih2 h with h1 | h2
      · exact Or.inl (List.mem_cons_of_mem i (List.mem_append_right _ h1))
      · rcases ih1 h2 with h3 | h4
        · exact Or.inl (List.mem_cons_of_mem i (List.mem_append_left _ h3))
        · rcases List.mem_cons.mp h4 with h5 | h6
          · exact Or.inl (h5 ▸ List.mem_cons_self _ _)
          · exact Or.inr h6

lemma observeList_inv (l : List ScopeTree) (s : WatchState) :
    s.subs = s.observed → s.observed.Nodup →
      ((observeList l s).subs = (observeList l s).observed ∧
        (observeList l s).observed.Nodup) := by
  induction l, s using observeList.induct with
  | case1 s =>
      intro h1 h2
      rw [observeList_nil]
      exact ⟨h1, h2⟩
  | case2 i cs rest s hm ih =>
      intro h1 h2
      rw [observeList_cons_mem i cs rest s hm]
      exact ih h1 h2
  | case3 i cs rest s hm ih1 ih2 =>
      intro h1 h2
      rw [observeList_cons_notmem i cs rest s hm]
      have hinner := ih1 (by rw [h1]) (List.nodup_cons.mpr ⟨hm, h2⟩)
      exact ih2 hinner.1 hinner.2

lemma observeList_covers (l : List ScopeTree) (s : WatchState) :
    (scopeIdsList l).Nodup → (∀ j ∈ scopeIdsList l, j ∉ s.observed) →
      ∀ j ∈ scopeIdsList l, j ∈ (observeList l s).observed := by
  induction l, s using observeList.induct with
  | case1 s =>
      intro _ _ j hj
      simp [scopeIdsList] at hj
  | case2 i cs rest s hm ih =>
      intro hnd hfresh j hj
      exact absurd hm (hfresh i (by rw [scopeIdsList_cons]; exact List.mem_cons_self _ _))
  | case3 i cs rest s hm ih1 ih2 =>
      intro hnd hfresh j hj
      rw [scopeIdsList_cons] at hnd hfresh hj
      have hnotmem : i ∉ scopeIdsList cs ++ scopeIdsList rest := (List.nodup_cons.mp hnd).1
      have happ : (scopeIdsList cs ++ scopeIdsList rest).Nodup := (List.nodup_cons.mp hnd).2
      have hndc : (scopeIdsList cs).Nodup := (List.nodup_append.mp happ).1
      have hndr : (scopeIdsList rest).Nodup := (List.nodup_append.mp happ).2.1
      have hdisj : ∀ a ∈ scopeIdsList cs, a ∉ scopeIdsList rest :=
        (List.nodup_append.mp happ).2.2
      have hfreshc : ∀ a ∈ scopeIdsList cs, a ∉ (⟨i :: s.observed, i :: s.subs⟩ :
          WatchState).observed := by
        intro a ha hmem
        rcases List.mem_cons.mp hmem with h5 | h6
        · exact hnotmem (h5 ▸ List.mem_append_left _ ha)
        · exact hfresh a (List.mem_cons_of_mem i (List.mem_append_left _ ha)) h6
      have hcovA : ∀ a ∈ scopeIdsList cs,
          a ∈ (observeList cs ⟨i :: s.observed, i :: s.subs⟩).observed :=
        ih1 hndc hfreshc
      have hiA : i ∈ (observeList cs ⟨i :: s.observed, i :: s.subs⟩).observed :=
        observeList_mono cs _ i (List.mem_cons_self _ _)
      have hfreshA : ∀ a ∈ scopeIdsList rest,
          a ∉ (observeList cs ⟨i :: s.observed, i :: s.subs⟩).observed := by
        intro a ha hA
        rcases observeList_observed_sub cs _ a hA with hc | hs'
        · exact hdisj a hc ha
        · rcases List.mem_cons.mp hs' with h5 | h6
          · exact hnotmem (h5 ▸ List.mem_append_right _ ha)
          · exact hfresh a (List.mem_cons_of_mem i (List.mem_append_right _ ha)) h6
      rw [observeList_cons_notmem i cs rest s hm]
      rcases List.mem_cons.mp hj with h5 | h6
      · exact h5 ▸ observeList_mono rest _ i hiA
      · rcases List.mem_append.mp h6 with h7 | h8
        · exact observeList_mono rest _ j (hcovA j h7)
        · exact ih2 hndr hfreshA j h8

/-- C8.  Observe-once invariant: re-calling `observeRoot` on an observed
root is a complete no-op; observed scopes never leave the set; starting
from a state where subscriptions and observed set agree and the set has no
duplicates, this remains true and every scope carries at most one
subscription; and the first call on a fresh root observes the root together
with all of its existing descendant scopes. -/
theorem observe_once (s : WatchState) (i : Nat) (cs : List ScopeTree) (t : ScopeTree) :
    ((i ∈ s.observed → observeRoot (ScopeTree.node i cs) s = s) ∧
      (∀ j ∈ s.observed, j ∈ (observeRoot t s).observed) ∧
      (s.subs = s.observed → s.observed.Nodup →
        ((observeRoot t s).subs = (observeRoot t s).observed ∧
          (observeRoot t s).observed.Nodup ∧
          ∀ j, (observeRoot t s).subs.count j ≤ 1)) ∧
      ((scopeIds t).Nodup → (∀ j ∈ scopeIds t, j ∉ s.observed) →
        ∀ j ∈ scopeIds t, j ∈ (observeRoot t s).observed)) := by
  refine ⟨?_, ?_, ?_, ?_⟩
  · intro h
    unfold observeRoot
    rw [observeList_cons_mem i cs [] s h, observeList_nil]
  · intro j hj
    exact observeList_mono [t] s j hj
  · intro h1 h2
    obtain ⟨ha, hb⟩ := observeList_inv [t] s h1 h2
    refine ⟨ha, hb, fun j => ?_⟩
    unfold observeRoot
    rw [ha]
    exact List.nodup_iff_count_le_one.mp hb j
  · intro hnd hfresh
    exact observeList_covers [t] s hnd hfresh

/-- Closed instance of C8: observing a three-scope tree from an empty state
subscribes every scope, and a second `observeRoot` call on the same root is
a no-op. -/
theorem observe_once_witness :
    ((2 ∈ (observeRoot (ScopeTree.node 1 [ScopeTree.node 2 [], ScopeTree.node 3 []])
        ⟨[], []⟩).observed) ∧
      observeRoot (ScopeTree.node 1 [ScopeTree.node 2 [], ScopeTree.node 3 []])
          (observeRoot (ScopeTree.node 1 [ScopeTree.node 2 [], ScopeTree.node 3 []])
            ⟨[], []⟩) =
        observeRoot (ScopeTree.node 1 [ScopeTree.node 2 [], ScopeTree.node 3 []])
          ⟨[], []⟩) :=
  ⟨(observe_once ⟨[], []⟩ 1 [] (ScopeTree.node 1 [ScopeTree.node 2 [], ScopeTree.node 3 []])).2.2.2
      (by simp [scopeIds, scopeIdsList]) (by simp [scopeIds, scopeIdsList]) 2
      (by simp [scopeIds, scopeIdsList]),
    (observe_once (observeRoot (ScopeTree.node 1 [ScopeTree.node 2 [], ScopeTree.node 3 []])
        ⟨[], []⟩) 1 [ScopeTree.node 2 [], ScopeTree.node 3 []] (ScopeTree.node 1 [])).1
      (by simp [observeRoot, observeList])⟩

/-- The fixed trailing-edge debounce delay of `scheduleApply`
(`src/content.js` lines 162-170, `src/popup.js` lines 580-583):
`setTimeout(..., 150)`. -/
def DEBOUNCE_MS : Nat := 150

/-- Debounce bookkeeping: `pending` is the absolute fire time of the
currently scheduled `setTimeout` callback (if any), `fires` counts the
synchronization passes that have already run. -/
structure DebounceState where
  pending : Option Nat
  fires : Nat
deriving Repr, DecidableEq

/-- One `scheduleApply()` call at absolute time `t`: a previously scheduled
timer that has already expired (fire time ≤ t) has run its pass by now; an
unexpired one is cancelled by `clearTimeout`; either way a fresh timer is
scheduled for `t + 150`.  The notification itself never runs the pass
(pure trailing edge, no leading invocation). -/
def notifyAt (s : DebounceState) (t : Nat) : DebounceState :=
  match s.pending with
  | none => ⟨some (t + DEBOUNCE_MS), s.fires⟩
  | some ft =>
      if ft ≤ t then ⟨some (t + DEBOUNCE_MS), s.fires + 1⟩
      else ⟨some (t + DEBOUNCE_MS), s.fires⟩

/-- After quiescence the last scheduled timer fires. -/
def flushPending (s : DebounceState) : Nat :=
  match s.pending with
  | none => s.fires
  | some _ => s.fires + 1

/-- Total number of synchronization passes produced by a timestamped
sequence of structural-change notifications, counted after quiescence. -/
def runDebounce (times : List Nat) : Nat :=
  flushPending (times.foldl notifyAt ⟨none, 0⟩)

/-- Boolean chain condition over consecutive pairs of a timestamp list. -/
def pairsChain (p : Nat → Nat → Bool) : List Nat → Bool
  | [] => true
  | [_] => true
  | a :: b :: rest => p a b && pairsChain p (b :: rest)

/-- The coalescing gap condition: the next notification arrives no earlier,
but strictly before the pending timer at `a + 150` expires. -/
def withinWindow (a b : Nat) : Bool := decide (a ≤ b) && decide (b < a + DEBOUNCE_MS)

/-- The spacing condition: the next notification arrives only after the
pending timer at `a + 150` has expired. -/
def beyondWindow (a b : Nat) : Bool := decide (a + DEBOUNCE_MS ≤ b)

lemma foldl_coalesce (ts : List Nat) (tp n : Nat)
    (h : pairsChain withinWindow (tp :: ts) = true) :
    ∃ tl, ts.foldl notifyAt ⟨some (tp + DEBOUNCE_MS), n⟩ = ⟨some (tl + DEBOUNCE_MS), n⟩ := by
  induction ts generalizing tp with
  | nil => exact ⟨tp, rfl⟩
  | cons b rest ih =>
      have hb : withinWindow tp b = true ∧ pairsChain withinWindow (b :: rest) = true := by
        simpa [pairsChain] using h
      have hlt : b < tp + DEBOUNCE_MS := by
        have := hb.1
        unfold withinWindow at this
        simp at this
        exact this.2
      have hstep : notifyAt ⟨some (tp + DEBOUNCE_MS), n⟩ b = ⟨some (b + DEBOUNCE_MS), n⟩ := by
        unfold notifyAt
        simp [Nat.not_le.mpr hlt]
      rw [List.foldl_cons, hstep]
      exact ih b hb.2

lemma foldl_spaced (ts : List Nat) (tp n : Nat)
    (h : pairsChain beyondWindow (tp :: ts) = true) :
    ∃ tl, ts.foldl notifyAt ⟨some (tp + DEBOUNCE_MS), n⟩ =
      ⟨some (tl + DEBOUNCE_MS), n + ts.length⟩ := by
  induction ts generalizing tp n with
  | nil => exact ⟨tp, rfl⟩
  | cons b rest ih =>
      have hb : beyondWindow tp b = true ∧ pairsChain beyondWindow (b :: rest) = true := by
        simpa [pairsChain] using h
      have hle : tp + DEBOUNCE_MS ≤ b := by
        have := hb.1
        unfold beyondWindow at this
        simpa using this
      have hstep : notifyAt ⟨some (tp + DEBOUNCE_MS), n⟩ b = ⟨some (b + DEBOUNCE_MS), n + 1⟩ := by
        unfold notifyAt
        simp [hle]
      rw [List.foldl_cons, hstep]
      obtain ⟨tl, htl⟩ := ih b (n + 1) hb.2
      refine ⟨tl, ?_⟩
      rw [htl]
      have harith : n + 1 + rest.length = n + (b :: rest).length := by
        rw [List.length_cons]
        omega
      rw [harith]

/-- C7.  Debounce coalescing: any non-empty burst of notifications whose
consecutive gaps all stay inside the 150 ms window produces exactly one
synchronization pass after quiescence; notifications each spaced beyond the
window produce exactly one pass per notification; and with no notification
there is no pass (no leading invocation). -/
theorem debounce_coalescing (t0 : Nat) (ts : List Nat) :
    ((pairsChain withinWindow (t0 :: ts) = true → runDebounce (t0 :: ts) = 1) ∧
      (pairsChain beyondWindow (t0 :: ts) = true →
        runDebounce (t0 :: ts) = (t0 :: ts).length) ∧
      runDebounce [] = 0) := by
  have hfirst : notifyAt ⟨none, 0⟩ t0 = ⟨some (t0 + DEBOUNCE_MS), 0⟩ := by
    unfold notifyAt
    rfl
  refine ⟨?_, ?_, rfl⟩
  · intro h
    obtain ⟨tl, htl⟩ := foldl_coalesce ts t0 0 h
    unfold runDebounce
    rw [List.foldl_cons, hfirst, htl]
    rfl
  · intro h
    obtain ⟨tl, htl⟩ := foldl_spaced ts t0 0 h
    unfold runDebounce
    rw [List.foldl_cons, hfirst, htl]
    unfold flushPending
    simp [List.length_cons]

/-- Closed instance of C7: three notifications inside one window coalesce
into a single pass; three notifications spaced 200 ms apart produce three
passes. -/
theorem debounce_coalescing_witness :
    (runDebounce [0, 50, 100] = 1 ∧ runDebounce [0, 200, 400] = 3) :=
  ⟨(debounce_coalescing 0 [50, 100]).1 (by decide),
    (debounce_coalescing 0 [200, 400]).2.1 (by decide)⟩

end BetterSpace
